import Mathlib

/-!
Verification of the reward-bot ledger in `src/main.py`.

The sqlite database is embedded shallowly: each table is a list of rows in
insertion order, Python floats are modelled as exact rationals, ISO calendar
dates as day numbers, and every `conn.commit()` boundary as one atomic
persistence unit.  Handlers become pure functions on the whole database
state; the randomness (`random.uniform`, `random.randint`) and the
conversation scratch data (`context.user_data`) enter as explicit
parameters.  Where a handler performs several commits in sequence, the
function takes a parameter selecting how many of the successive commit
units persist, so that states left behind by a failure between commits are
expressible.
-/

namespace Botim

/-- Row of the `users` table.  The text profile columns
(`username`, `first_name`, `last_name`, `created_at`) carry no
balance-relevant information and are omitted. -/
structure UserRow where
  id : Nat
  balance : ℚ
  last_bonus : Option Nat
  streak : Nat
  referred_by : Option Nat
  is_banned : Bool
  daily_sent : ℚ
  deriving Repr, DecidableEq

/-- Column defaults of the `users` table for a freshly inserted row. -/
def defaultUser (uid : Nat) (referredBy : Option Nat) : UserRow :=
  { id := uid, balance := 0, last_bonus := none, streak := 0,
    referred_by := referredBy, is_banned := false, daily_sent := 0 }

/-- Row of the `transactions` table (`meta` and `ts` omitted). -/
structure Tx where
  user_id : Nat
  ttype : String
  amount : ℚ
  reason : String
  deriving Repr, DecidableEq

/-- Row of the `missions` table; `condition_json` holds at most the two
keys `"referrals"` and `"spins"` recognised by the evaluation loop. -/
structure Mission where
  mid : Nat
  reward : ℚ
  condReferrals : Option Nat
  condSpins : Option Nat
  deriving Repr, DecidableEq

/-- Row of the `user_missions` table (`progress_json`, `completed_at`
omitted).  The table has no primary key, so rows are only ever appended. -/
structure UserMission where
  user_id : Nat
  mission_id : Nat
  completed : Bool
  deriving Repr, DecidableEq

/-- Row of the `referrals` table. -/
structure Referral where
  referrer : Nat
  referred : Nat
  deriving Repr, DecidableEq

/-- Row of the `spins` table, with `ts` reduced to its calendar day. -/
structure SpinRow where
  user_id : Nat
  reward : ℚ
  day : Nat
  deriving Repr, DecidableEq

/-- Row of the `user_quiz_history` table, with `ts` reduced to its day. -/
structure QuizHist where
  user_id : Nat
  question_id : Nat
  correct : Bool
  day : Nat
  deriving Repr, DecidableEq

/-- The whole database state (tables not touched by any balance-affecting
operation — `orders`, `channels`, `user_subscriptions`, `quiz_questions` —
are omitted). -/
structure State where
  users : List UserRow
  txs : List Tx
  referrals : List Referral
  spins : List SpinRow
  missions : List Mission
  user_missions : List UserMission
  quiz_history : List QuizHist
  deriving Repr, DecidableEq

/-- `SELECT ... FROM users WHERE id=?` followed by `fetchone()`. -/
def findUser (s : State) (uid : Nat) : Option UserRow :=
  s.users.find? (fun u => u.id == uid)

/-- `UPDATE users SET ... WHERE id=?`. -/
def updateUser (s : State) (uid : Nat) (f : UserRow → UserRow) : State :=
  { s with users := s.users.map (fun u => if u.id == uid then f u else u) }

/-- `ensure_user`: insert a fresh row when absent.  (The profile-column
refresh performed for an existing row touches only omitted columns.) -/
def ensure_user (s : State) (uid : Nat) (referredBy : Option Nat) : State :=
  if (findUser s uid).isSome then s
  else { s with users := s.users ++ [defaultUser uid referredBy] }

/-- `get_balance`. -/
def get_balance (s : State) (uid : Nat) : ℚ :=
  match findUser s uid with
  | some u => u.balance
  | none => 0

/-- `add_transaction`: `INSERT OR IGNORE` the user, add `amount` to the
cached balance, append the transaction row; one commit covers all three. -/
def add_transaction (s : State) (uid : Nat) (ttype : String) (amount : ℚ)
    (reason : String) : State :=
  let s1 := ensure_user s uid none
  let s2 := updateUser s1 uid (fun u => { u with balance := u.balance + amount })
  { s2 with txs := s2.txs ++ [{ user_id := uid, ttype := ttype,
                                amount := amount, reason := reason }] }

/-- `safe_round`: `round(float(math.floor(amount * 100 + 0.5)) / 100.0, 2)`.
The quotient already is an exact multiple of 1/100, so the outer
`round(·, 2)` is the identity and is dropped. -/
def safe_round (amount : ℚ) : ℚ :=
  ((amount * 100 + 1/2).floor : ℚ) / 100

/-- Python `round(x, 2)` at the one call site that reaches the ledger
(`round(streak * 0.2, 2)`).  There the argument is an exact multiple of
1/10, never a half-way tie, so round-half-even agrees with this formula. -/
def round2 (amount : ℚ) : ℚ :=
  ((amount * 100 + 1/2).floor : ℚ) / 100

/-- `can_receive_bonus_today`, with `datetime.date.today()` passed in. -/
def can_receive_bonus_today (s : State) (uid today : Nat) : Bool :=
  match findUser s uid with
  | none => true
  | some u =>
    match u.last_bonus with
    | none => true
    | some last => last != today

/-- `update_last_bonus_and_streak`: commits the new date and streak on its
own, and returns the new streak. -/
def update_last_bonus_and_streak (s : State) (uid today : Nat) : State × Nat :=
  let lastB := match findUser s uid with
    | some u => u.last_bonus
    | none => none
  let streak0 := match findUser s uid with
    | some u => u.streak
    | none => 0
  let yesterday := today - 1
  let streak := if lastB = some yesterday then streak0 + 1 else 1
  (updateUser s uid (fun u => { u with last_bonus := some today, streak := streak }),
   streak)

/-- `DAILY_MAX_BONUS_PER_USER`. -/
def DAILY_MAX_BONUS_PER_USER : ℚ := 20

/-- `MAX_SEND_PER_DAY`. -/
def MAX_SEND_PER_DAY : ℚ := 500

/-- `daily_bonus_cmd`.  `base` is the value of `round(random.uniform(0.2,
5.0), 2)`; `appendOk` tells whether the trailing `add_transaction` commit
succeeds — the streak update has committed on its own before it runs. -/
def daily_bonus_cmd (s : State) (uid today : Nat) (base : ℚ)
    (appendOk : Bool) : State :=
  let s0 := ensure_user s uid none
  if can_receive_bonus_today s0 uid today then
    let p := update_last_bonus_and_streak s0 uid today
    let streak_bonus := round2 ((p.2 : ℚ) * (2/10))
    let total0 := safe_round (base + streak_bonus)
    let total := if total0 > DAILY_MAX_BONUS_PER_USER
                 then DAILY_MAX_BONUS_PER_USER else total0
    if appendOk then add_transaction p.1 uid "bonus" total "daily_bonus"
    else p.1
  else s0

/-- The streak value `daily_bonus_cmd` computes for an account whose users
row is `u`: incremented when the stored date is exactly yesterday, else 1. -/
def bonus_streak (u : UserRow) (today : Nat) : Nat :=
  if u.last_bonus = some (today - 1) then u.streak + 1 else 1

/-- The total `daily_bonus_cmd` passes to `add_transaction`: base plus
streak bonus, `safe_round`ed, clamped at `DAILY_MAX_BONUS_PER_USER`. -/
def bonus_total (u : UserRow) (today : Nat) (base : ℚ) : ℚ :=
  if safe_round (base + round2 ((bonus_streak u today : ℚ) * (2/10)))
      > DAILY_MAX_BONUS_PER_USER
  then DAILY_MAX_BONUS_PER_USER
  else safe_round (base + round2 ((bonus_streak u today : ℚ) * (2/10)))

/-- Outcome of the `send_amount` conversation step. -/
inductive SendAmountResult where
  | reprompt
  | insufficient
  | capExceeded
  | proceed (amount : ℚ)
  deriving Repr, DecidableEq

/-- `send_amount`, starting from the parsed numeric value of the message
text.  It performs no state change; `proceed a` means `a` was stored in
`context.user_data` and the conversation advanced to the confirm step. -/
def send_amount (s : State) (sender : Nat) (raw : ℚ) : SendAmountResult :=
  let amount := safe_round raw
  if amount ≤ 0 then SendAmountResult.reprompt
  else
    let bal := get_balance s sender
    if amount > bal then SendAmountResult.insufficient
    else
      let dailySent := match findUser s sender with
        | some u => u.daily_sent
        | none => 0
      if dailySent + amount > MAX_SEND_PER_DAY then SendAmountResult.capExceeded
      else SendAmountResult.proceed amount

/-- `send_confirm`.  `scratch` is `context.user_data`'s `(recipient,
amount)` pair; `cancel` selects the `cancel_send` branch.  The body runs
four successive commit units — `ensure_user` on the recipient, the
`transfer_out` append, the `transfer_in` append, the `daily_sent` bump —
and `k` is how many of them persist (`k = 4` is the complete run). -/
def send_confirm (s : State) (sender : Nat) (scratch : Option (Nat × ℚ))
    (cancel : Bool) (k : Nat) : State :=
  if cancel then s
  else
    match scratch with
    | none => s
    | some (rec, amt) =>
      let s1 := if 1 ≤ k then ensure_user s rec none else s
      if amt > get_balance s1 sender then s1
      else
        let s2 := if 2 ≤ k then add_transaction s1 sender "transfer_out" (-amt) "to" else s1
        let s3 := if 3 ≤ k then add_transaction s2 rec "transfer_in" amt "from" else s2
        if 4 ≤ k then
          updateUser s3 sender (fun u => { u with daily_sent := u.daily_sent + amt })
        else s3

/-- `spin_rewards_table`. -/
def spin_rewards_table : List (ℚ × Nat) :=
  [(0, 10), (2/10, 25), (5/10, 20), (1, 15), (2, 10), (5, 5), (10, 1)]

/-- The accumulation loop inside `spin_once`. -/
def spin_walk (r : Nat) : List (ℚ × Nat) → Nat → ℚ
  | [], _ => 0
  | (reward, weight) :: rest, upto =>
    if r ≤ upto + weight then reward else spin_walk r rest (upto + weight)

/-- `spin_once`, with the draw `r = random.randint(1, total_weight)` made
explicit. -/
def spin_once (r : Nat) : ℚ :=
  spin_walk r spin_rewards_table 0

/-- `spin_start`.  Commit units after the day-count check: the `spin`
ledger append, then the `spins` row insert; `k` is how many persist. -/
def spin_start (s : State) (uid today r : Nat) (k : Nat) : State :=
  let s0 := ensure_user s uid none
  let cnt := (s0.spins.filter (fun row => row.user_id == uid && row.day == today)).length
  if 1 ≤ cnt then s0
  else
    let reward := spin_once r
    let s1 := if 1 ≤ k then add_transaction s0 uid "spin" reward "daily_spin" else s0
    if 2 ≤ k then { s1 with spins := s1.spins ++ [⟨uid, reward, today⟩] } else s1

/-- `start_handler`, reduced to its state effects.  `ref` is the referrer
id parsed from a `refN` payload (`none` when absent or malformed).  The
`referrals` insert and the referral `add_transaction` commit together. -/
def start_handler (s : State) (uid : Nat) (ref : Option Nat) : State :=
  let s0 := ensure_user s uid ref
  match ref with
  | none => s0
  | some rid =>
    if rid ≠ 0 ∧ rid ≠ uid then
      if (s0.referrals.find? (fun rr => rr.referred == uid)).isSome then s0
      else
        let s1 := { s0 with referrals := s0.referrals ++ [⟨rid, uid⟩] }
        add_transaction s1 rid "referral" 4 "Referral"
    else s0

/-- `quiz_answer_cb`.  `qobj` is the in-memory `current_quiz` context as
`(question id, answer index, reward)`; commit units: the history insert,
then (on a correct answer) the reward append; `k` is how many persist. -/
def quiz_answer_cb (s : State) (uid : Nat) (qobj : Option (Nat × Nat × ℚ))
    (sel today : Nat) (k : Nat) : State :=
  match qobj with
  | none => s
  | some (qid, ansIdx, reward) =>
    let correct := sel == ansIdx
    let s1 := if 1 ≤ k then
        { s with quiz_history := s.quiz_history ++ [⟨uid, qid, correct, today⟩] }
      else s
    if correct && 2 ≤ k then add_transaction s1 uid "quiz" reward "quiz"
    else s1

/-- One condition check of the mission loop: a key whose value is `0` is
falsy in Python and is skipped. -/
def mission_ok (s : State) (uid : Nat) (m : Mission) : Bool :=
  let ok1 := match m.condReferrals with
    | some n =>
      if n = 0 then true
      else n ≤ (s.referrals.filter (fun r => r.referrer == uid)).length
    | none => true
  let ok2 := match m.condSpins with
    | some n =>
      if n = 0 then true
      else n ≤ (s.spins.filter (fun r => r.user_id == uid)).length
    | none => true
  ok1 && ok2

/-- `SELECT completed FROM user_missions WHERE user_id=? AND mission_id=?`
followed by `fetchone()` and the `rr[0]==1` test. -/
def mission_completed (s : State) (uid mid : Nat) : Bool :=
  match s.user_missions.find? (fun um => um.user_id == uid && um.mission_id == mid) with
  | some um => um.completed
  | none => false

/-- One iteration of the mission loop.  The `INSERT OR REPLACE` appends
(the table has no uniqueness constraint to replace on) and commits
together with the reward's `add_transaction`. -/
def apply_mission (uid : Nat) (s : State) (m : Mission) : State :=
  if mission_completed s uid m.mid then s
  else if mission_ok s uid m then
    let s1 := { s with user_missions := s.user_missions ++ [⟨uid, m.mid, true⟩] }
    add_transaction s1 uid "mission_reward" m.reward ("mission " ++ toString m.mid)
  else s

/-- `check_and_apply_missions_for_user`; the mission list is fetched once
before the loop and is not changed by any iteration. -/
def check_and_apply_missions_for_user (s : State) (uid : Nat) : State :=
  s.missions.foldl (apply_mission uid) s

/-- `admin_add_balance_cmd` past argument parsing: `amt` is
`float(context.args[1])`, persisted with no rounding. -/
def admin_add_balance_cmd (s : State) (uid : Nat) (amt : ℚ) : State :=
  let s0 := ensure_user s uid none
  add_transaction s0 uid "admin_adjust" amt "Admin adjustment"

/-- `daily_audit_job`: reset every `daily_sent`, then run the mission loop
over the snapshot of user ids taken after the reset. -/
def daily_audit_job (s : State) : State :=
  let s1 : State := { s with users := s.users.map (fun u => { u with daily_sent := 0 }) }
  (s1.users.map (fun u => u.id)).foldl check_and_apply_missions_for_user s1

/-- `create_sample_missions`: the two rows inserted into an empty
`missions` table at startup. -/
def sample_missions : List Mission :=
  [{ mid := 1, reward := 4, condReferrals := some 1, condSpins := none },
   { mid := 2, reward := 5/10, condReferrals := none, condSpins := some 1 }]

/-- The database right after startup on a fresh file. -/
def initState : State :=
  { users := [], txs := [], referrals := [], spins := [],
    missions := sample_missions, user_missions := [], quiz_history := [] }

/-- One inbound event: every balance-affecting entry point of the program,
with its randomness, conversation scratch data and commit-unit count as
explicit data.  The scratch parameters over-approximate what the
conversation steps can store, which only widens the set of states the
invariants below are proved over. -/
inductive Op where
  | start (uid : Nat) (ref : Option Nat)
  | ensure (uid : Nat)
  | bonus (uid today : Nat) (base : ℚ) (appendOk : Bool)
  | transfer (sender : Nat) (scratch : Option (Nat × ℚ)) (cancel : Bool) (k : Nat)
  | quiz (uid : Nat) (qobj : Option (Nat × Nat × ℚ)) (sel today k : Nat)
  | spin (uid today r k : Nat)
  | missionsCheck (uid : Nat)
  | adminAdd (uid : Nat) (amt : ℚ)
  | audit

/-- Dispatch one event to its handler. -/
def step (s : State) : Op → State
  | Op.start uid ref => start_handler s uid ref
  | Op.ensure uid => ensure_user s uid none
  | Op.bonus uid today base ok => daily_bonus_cmd s uid today base ok
  | Op.transfer sender scratch cancel k => send_confirm s sender scratch cancel k
  | Op.quiz uid qobj sel today k => quiz_answer_cb s uid qobj sel today k
  | Op.spin uid today r k => spin_start s uid today r k
  | Op.missionsCheck uid => check_and_apply_missions_for_user s uid
  | Op.adminAdd uid amt => admin_add_balance_cmd s uid amt
  | Op.audit => daily_audit_job s

/-- Run a sequence of events from startup. -/
def runOps (ops : List Op) : State :=
  ops.foldl step initState

/-- Sum of the recorded transaction amounts of one account. -/
def txSum (s : State) (uid : Nat) : ℚ :=
  ((s.txs.filter (fun t => t.user_id == uid)).map (fun t => t.amount)).sum

/-- The ledger invariant: every cached balance equals the sum of the
account's transaction amounts, and user ids are unique. -/
def BalInv (s : State) : Prop :=
  (∀ uid, get_balance s uid = txSum s uid) ∧ (s.users.map (fun u => u.id)).Nodup

/-! ### Basic lemmas about the store primitives -/

lemma txSum_congr {s s' : State} (h : s'.txs = s.txs) (v : Nat) :
    txSum s' v = txSum s v := by
  unfold txSum; rw [h]

lemma txSum_append {s s' : State} (t : Tx) (h : s'.txs = s.txs ++ [t]) (v : Nat) :
    txSum s' v = txSum s v + if t.user_id = v then t.amount else 0 := by
  unfold txSum
  rw [h, List.filter_append, List.map_append, List.sum_append]
  congr 1
  by_cases hv : t.user_id = v
  · simp [List.filter, hv]
  · have hb : (t.user_id == v) = false := by simp [hv]
    simp [List.filter, hb, hv]

lemma get_balance_congr {s s' : State} (h : s'.users = s.users) (v : Nat) :
    get_balance s' v = get_balance s v := by
  unfold get_balance findUser; rw [h]

lemma findUser_id_eq {s : State} {uid : Nat} {u : UserRow}
    (h : findUser s uid = some u) : u.id = uid := by
  have := List.find?_some h
  simpa using this

lemma findUser_ensure (s : State) (uid : Nat) (r : Option Nat) (v : Nat) :
    findUser (ensure_user s uid r) v =
      if v = uid then some ((findUser s uid).getD (defaultUser uid r))
      else findUser s v := by
  unfold ensure_user
  cases h : findUser s uid with
  | some u =>
    simp only [h, Option.isSome_some, if_true, Option.getD_some]
    by_cases hv : v = uid
    · subst hv; simp [h]
    · simp [hv]
  | none =>
    simp only [h, Option.isSome_none, Bool.false_eq_true, if_false, Option.getD_none]
    show (s.users ++ [defaultUser uid r]).find? (fun u => u.id == v) = _
    rw [List.find?_append]
    by_cases hv : v = uid
    · subst hv
      have : s.users.find? (fun u => u.id == v) = none := h
      rw [this]
      simp [List.find?, defaultUser]
    · have hb : ((defaultUser uid r).id == v) = false := by
        simp [defaultUser]
        omega
      rw [if_neg hv]
      have h1 : List.find? (fun u => u.id == v) [defaultUser uid r] = none := by
        simp [List.find?, hb]
      rw [h1, Option.or_none]
      rfl

lemma ensure_user_txs (s : State) (uid : Nat) (r : Option Nat) :
    (ensure_user s uid r).txs = s.txs := by
  unfold ensure_user; split <;> rfl

lemma ensure_user_referrals (s : State) (uid : Nat) (r : Option Nat) :
    (ensure_user s uid r).referrals = s.referrals := by
  unfold ensure_user; split <;> rfl

lemma ensure_user_spins (s : State) (uid : Nat) (r : Option Nat) :
    (ensure_user s uid r).spins = s.spins := by
  unfold ensure_user; split <;> rfl

lemma ensure_user_missions (s : State) (uid : Nat) (r : Option Nat) :
    (ensure_user s uid r).missions = s.missions := by
  unfold ensure_user; split <;> rfl

lemma ensure_user_user_missions (s : State) (uid : Nat) (r : Option Nat) :
    (ensure_user s uid r).user_missions = s.user_missions := by
  unfold ensure_user; split <;> rfl

lemma get_balance_ensure (s : State) (uid : Nat) (r : Option Nat) (v : Nat) :
    get_balance (ensure_user s uid r) v = get_balance s v := by
  unfold get_balance
  rw [findUser_ensure]
  by_cases hv : v = uid
  · subst hv
    cases h : findUser s v <;> simp [h, defaultUser]
  · simp [hv]

lemma findUser_updateUser {f : UserRow → UserRow} (hf : ∀ u, (f u).id = u.id)
    (s : State) (uid v : Nat) :
    findUser (updateUser s uid f) v =
      (findUser s v).map (fun u => if u.id == uid then f u else u) := by
  unfold updateUser findUser
  show (s.users.map _).find? _ = _
  rw [List.find?_map]
  have hp : ((fun u : UserRow => u.id == v) ∘ fun u => if u.id == uid then f u else u)
      = fun u : UserRow => u.id == v := by
    funext u
    by_cases h : (u.id == uid) = true <;> simp [Function.comp, h, hf u]
  rw [hp]

lemma get_balance_updateUser_other {f : UserRow → UserRow}
    (hf : ∀ u, (f u).id = u.id) (s : State) (uid v : Nat) (hv : v ≠ uid) :
    get_balance (updateUser s uid f) v = get_balance s v := by
  unfold get_balance
  rw [findUser_updateUser hf]
  cases h : findUser s v with
  | none => rfl
  | some u =>
    have hid : u.id = v := findUser_id_eq h
    have hne : ¬ u.id = uid := by rw [hid]; exact hv
    simp [hne]

lemma get_balance_updateUser_self {f : UserRow → UserRow}
    (hf : ∀ u, (f u).id = u.id) (s : State) (uid : Nat) (u : UserRow)
    (h : findUser s uid = some u) :
    get_balance (updateUser s uid f) uid = (f u).balance := by
  unfold get_balance
  rw [findUser_updateUser hf, h]
  have hid : u.id = uid := findUser_id_eq h
  simp [hid]

lemma ids_map_of_id {g : UserRow → UserRow} (hg : ∀ u, (g u).id = u.id)
    (l : List UserRow) : (l.map g).map (fun u => u.id) = l.map (fun u => u.id) := by
  rw [List.map_map]
  congr 1
  funext u
  exact hg u

lemma nodup_ensure (s : State) (uid : Nat) (r : Option Nat)
    (h : (s.users.map (fun u => u.id)).Nodup) :
    ((ensure_user s uid r).users.map (fun u => u.id)).Nodup := by
  unfold ensure_user
  split
  · exact h
  · next hn =>
    have hnone : findUser s uid = none := by
      cases hfind : findUser s uid
      · rfl
      · simp [hfind] at hn
    have hmem : uid ∉ s.users.map (fun u => u.id) := by
      intro hmem
      obtain ⟨u, hu, hid⟩ := List.mem_map.mp hmem
      have := (List.find?_eq_none.mp hnone) u hu
      simp [hid] at this
    show ((s.users ++ [defaultUser uid r]).map _).Nodup
    rw [List.map_append]
    rw [List.nodup_append]
    refine ⟨h, by simp, ?_⟩
    intro a ha hb
    simp [defaultUser] at hb
    subst hb
    exact hmem ha

lemma updateUser_txs (s : State) (uid : Nat) (f : UserRow → UserRow) :
    (updateUser s uid f).txs = s.txs := rfl

lemma update_fun_id {f : UserRow → UserRow} (hf : ∀ u, (f u).id = u.id) (uid : Nat) :
    ∀ u, ((fun u => if u.id == uid then f u else u) u).id = u.id := by
  intro u
  by_cases h : (u.id == uid) = true <;> simp [h, hf u]

lemma add_transaction_txs (s : State) (uid : Nat) (ty : String) (a : ℚ) (rsn : String) :
    (add_transaction s uid ty a rsn).txs =
      s.txs ++ [{ user_id := uid, ttype := ty, amount := a, reason := rsn }] := by
  unfold add_transaction
  show (updateUser (ensure_user s uid none) uid _).txs ++ _ = _
  rw [updateUser_txs, ensure_user_txs]

lemma get_balance_add_transaction (s : State) (uid : Nat) (ty : String) (a : ℚ)
    (rsn : String) (v : Nat) :
    get_balance (add_transaction s uid ty a rsn) v
      = get_balance s v + if v = uid then a else 0 := by
  have h2 : get_balance (add_transaction s uid ty a rsn) v
      = get_balance (updateUser (ensure_user s uid none) uid
          (fun u => { u with balance := u.balance + a })) v := rfl
  rw [h2]
  by_cases hv : v = uid
  · subst hv
    cases h : findUser s v with
    | some u =>
      have h1 : findUser (ensure_user s v none) v = some u := by
        rw [findUser_ensure]
        simp [h]
      rw [get_balance_updateUser_self (f := fun u => { u with balance := u.balance + a })
        (fun _ => rfl) _ _ u h1]
      show u.balance + a = get_balance s v + _
      unfold get_balance
      rw [h]
      simp
    | none =>
      have h1 : findUser (ensure_user s v none) v = some (defaultUser v none) := by
        rw [findUser_ensure]
        simp [h]
      rw [get_balance_updateUser_self (f := fun u => { u with balance := u.balance + a })
        (fun _ => rfl) _ _ _ h1]
      show (defaultUser v none).balance + a = get_balance s v + _
      unfold get_balance
      rw [h]
      simp [defaultUser]
  · rw [get_balance_updateUser_other (f := fun u => { u with balance := u.balance + a })
      (fun _ => rfl) _ _ _ hv, get_balance_ensure]
    simp [hv]

lemma txSum_add_transaction (s : State) (uid : Nat) (ty : String) (a : ℚ)
    (rsn : String) (v : Nat) :
    txSum (add_transaction s uid ty a rsn) v = txSum s v + if v = uid then a else 0 := by
  rw [txSum_append _ (add_transaction_txs s uid ty a rsn) v]
  congr 1
  by_cases hv : v = uid
  · simp [hv]
  · have : ¬ uid = v := fun hh => hv hh.symm
    simp [hv, this]

lemma nodup_add_transaction (s : State) (uid : Nat) (ty : String) (a : ℚ) (rsn : String)
    (h : (s.users.map (fun u => u.id)).Nodup) :
    ((add_transaction s uid ty a rsn).users.map (fun u => u.id)).Nodup := by
  have heq : (add_transaction s uid ty a rsn).users.map (fun u => u.id)
      = (ensure_user s uid none).users.map (fun u => u.id) := by
    show ((updateUser (ensure_user s uid none) uid _).users.map _) = _
    unfold updateUser
    exact ids_map_of_id
      (update_fun_id (f := fun u => { u with balance := u.balance + a }) (fun _ => rfl) uid) _
  rw [heq]
  exact nodup_ensure s uid none h

lemma balInv_ensure (s : State) (uid : Nat) (r : Option Nat) (h : BalInv s) :
    BalInv (ensure_user s uid r) := by
  obtain ⟨hbal, hnd⟩ := h
  refine ⟨fun v => ?_, nodup_ensure s uid r hnd⟩
  rw [get_balance_ensure, txSum_congr (ensure_user_txs s uid r) v]
  exact hbal v

lemma balInv_add_transaction (s : State) (uid : Nat) (ty : String) (a : ℚ)
    (rsn : String) (h : BalInv s) : BalInv (add_transaction s uid ty a rsn) := by
  obtain ⟨hbal, hnd⟩ := h
  refine ⟨fun v => ?_, nodup_add_transaction s uid ty a rsn hnd⟩
  rw [get_balance_add_transaction, txSum_add_transaction, hbal v]

lemma balInv_of_fields {s s' : State} (hu : s'.users = s.users) (ht : s'.txs = s.txs)
    (h : BalInv s) : BalInv s' := by
  obtain ⟨hbal, hnd⟩ := h
  refine ⟨fun v => ?_, ?_⟩
  · rw [get_balance_congr hu, txSum_congr ht]
    exact hbal v
  · rw [hu]
    exact hnd

lemma balInv_updateUser {f : UserRow → UserRow} (hf : ∀ u, (f u).id = u.id)
    (hb : ∀ u, (f u).balance = u.balance) (s : State) (uid : Nat) (h : BalInv s) :
    BalInv (updateUser s uid f) := by
  obtain ⟨hbal, hnd⟩ := h
  refine ⟨fun v => ?_, ?_⟩
  · have htx : txSum (updateUser s uid f) v = txSum s v := txSum_congr rfl v
    rw [htx]
    by_cases hv : v = uid
    · subst hv
      cases hfind : findUser s v with
      | none =>
        unfold get_balance
        rw [findUser_updateUser hf, hfind]
        have := hbal v
        unfold get_balance at this
        rw [hfind] at this
        exact this
      | some u =>
        rw [get_balance_updateUser_self hf _ _ u hfind, hb u]
        have := hbal v
        unfold get_balance at this
        rw [hfind] at this
        exact this
    · rw [get_balance_updateUser_other hf _ _ _ hv]
      exact hbal v
  · show ((s.users.map _).map _).Nodup
    rw [ids_map_of_id (update_fun_id hf uid)]
    exact hnd

lemma get_balance_users_map {g : UserRow → UserRow} (hg : ∀ u, (g u).id = u.id)
    (hb : ∀ u, (g u).balance = u.balance) (s : State) (v : Nat) :
    get_balance { s with users := s.users.map g } v = get_balance s v := by
  unfold get_balance findUser
  show (match (s.users.map g).find? (fun u => u.id == v) with
        | some u => u.balance
        | none => 0) = _
  rw [List.find?_map]
  have hp : ((fun u : UserRow => u.id == v) ∘ g) = fun u : UserRow => u.id == v := by
    funext u
    simp [Function.comp, hg u]
  rw [hp]
  cases hfind : s.users.find? (fun u => u.id == v) <;> simp [hfind, hb _]

lemma balInv_users_map {g : UserRow → UserRow} (hg : ∀ u, (g u).id = u.id)
    (hb : ∀ u, (g u).balance = u.balance) (s : State) (h : BalInv s) :
    BalInv { s with users := s.users.map g } := by
  obtain ⟨hbal, hnd⟩ := h
  refine ⟨fun v => ?_, ?_⟩
  · rw [get_balance_users_map hg hb, txSum_congr rfl]
    exact hbal v
  · show ((s.users.map g).map _).Nodup
    rw [ids_map_of_id hg]
    exact hnd

/-! ### Transaction-log extension (append-only) -/

/-- The transaction log of `s'` extends that of `s`: rows are only ever
appended, never mutated or deleted. -/
def Ext (s s' : State) : Prop := ∃ rest, s'.txs = s.txs ++ rest

lemma ext_refl (s : State) : Ext s s := ⟨[], by simp⟩

lemma ext_of_eq {s s' : State} (h : s'.txs = s.txs) : Ext s s' := ⟨[], by simp [h]⟩

lemma ext_trans {s1 s2 s3 : State} (h1 : Ext s1 s2) (h2 : Ext s2 s3) : Ext s1 s3 := by
  obtain ⟨r1, e1⟩ := h1
  obtain ⟨r2, e2⟩ := h2
  exact ⟨r1 ++ r2, by rw [e2, e1, List.append_assoc]⟩

lemma ext_add_transaction (s : State) (uid : Nat) (ty : String) (a : ℚ) (rsn : String) :
    Ext s (add_transaction s uid ty a rsn) :=
  ⟨_, add_transaction_txs s uid ty a rsn⟩

/-- Good step: preserves the ledger invariant and only appends to the log. -/
def Good (s s' : State) : Prop := (BalInv s → BalInv s') ∧ Ext s s'

lemma good_refl (s : State) : Good s s := ⟨id, ext_refl s⟩

lemma good_trans {s1 s2 s3 : State} (h1 : Good s1 s2) (h2 : Good s2 s3) : Good s1 s3 :=
  ⟨fun h => h2.1 (h1.1 h), ext_trans h1.2 h2.2⟩

lemma good_ensure (s : State) (uid : Nat) (r : Option Nat) : Good s (ensure_user s uid r) :=
  ⟨balInv_ensure s uid r, ext_of_eq (ensure_user_txs s uid r)⟩

lemma good_add_transaction (s : State) (uid : Nat) (ty : String) (a : ℚ) (rsn : String) :
    Good s (add_transaction s uid ty a rsn) :=
  ⟨balInv_add_transaction s uid ty a rsn, ext_add_transaction s uid ty a rsn⟩

lemma good_updateUser {f : UserRow → UserRow} (hf : ∀ u, (f u).id = u.id)
    (hb : ∀ u, (f u).balance = u.balance) (s : State) (uid : Nat) :
    Good s (updateUser s uid f) :=
  ⟨balInv_updateUser hf hb s uid, ext_of_eq rfl⟩

lemma good_of_fields {s s' : State} (hu : s'.users = s.users) (ht : s'.txs = s.txs) :
    Good s s' :=
  ⟨balInv_of_fields hu ht, ext_of_eq ht⟩

lemma good_foldl {β : Type} (f : State → β → State)
    (hf : ∀ s b, Good s (f s b)) :
    ∀ (l : List β) (s : State), Good s (List.foldl f s l) := by
  intro l
  induction l with
  | nil => intro s; exact good_refl s
  | cons b l ih =>
    intro s
    exact good_trans (hf s b) (ih (f s b))

lemma good_if {c : Prop} [Decidable c] {s s' : State} (h : Good s s') :
    Good s (if c then s' else s) := by
  split
  · exact h
  · exact good_refl s

lemma good_set_referrals (s : State) (l : List Referral) :
    Good s { s with referrals := l } := good_of_fields rfl rfl

lemma good_set_user_missions (s : State) (l : List UserMission) :
    Good s { s with user_missions := l } := good_of_fields rfl rfl

lemma good_start_handler (s : State) (uid : Nat) (ref : Option Nat) :
    Good s (start_handler s uid ref) := by
  cases ref with
  | none =>
    show Good s (ensure_user s uid none)
    exact good_ensure s uid none
  | some rid =>
    simp only [start_handler]
    split
    · split
      · exact good_ensure s uid (some rid)
      · exact good_trans (good_ensure s uid (some rid))
          (good_trans (good_set_referrals _ _)
            (good_add_transaction _ rid "referral" 4 "Referral"))
    · exact good_ensure s uid (some rid)

lemma good_update_streak (s : State) (uid today : Nat) :
    Good s (update_last_bonus_and_streak s uid today).1 := by
  exact good_updateUser
    (f := fun u => { u with last_bonus := some today,
                            streak := (update_last_bonus_and_streak s uid today).2 })
    (fun _ => rfl) (fun _ => rfl) s uid

lemma good_daily_bonus (s : State) (uid today : Nat) (base : ℚ) (ok : Bool) :
    Good s (daily_bonus_cmd s uid today base ok) := by
  simp only [daily_bonus_cmd]
  split
  · split
    · exact good_trans (good_ensure s uid none)
        (good_trans (good_update_streak _ uid today)
          (good_add_transaction _ uid "bonus" _ "daily_bonus"))
    · exact good_trans (good_ensure s uid none) (good_update_streak _ uid today)
  · exact good_ensure s uid none

lemma good_send_confirm (s : State) (sender : Nat) (scratch : Option (Nat × ℚ))
    (cancel : Bool) (k : Nat) : Good s (send_confirm s sender scratch cancel k) := by
  cases hc : cancel with
  | true =>
    show Good s s
    exact good_refl s
  | false =>
    cases scratch with
    | none =>
      show Good s s
      exact good_refl s
    | some pr =>
      obtain ⟨rec, amt⟩ := pr
      simp only [send_confirm]
      split
      · exact good_refl s
      · set s1 : State := if 1 ≤ k then ensure_user s rec none else s with hs1
        have g1 : Good s s1 := good_if (good_ensure s rec none)
        split
        · exact g1
        · set s2 : State :=
            if 2 ≤ k then add_transaction s1 sender "transfer_out" (-amt) "to" else s1
            with hs2
          have g2 : Good s s2 :=
            good_trans g1 (good_if (good_add_transaction s1 sender "transfer_out" (-amt) "to"))
          set s3 : State :=
            if 3 ≤ k then add_transaction s2 rec "transfer_in" amt "from" else s2
            with hs3
          have g3 : Good s s3 :=
            good_trans g2 (good_if (good_add_transaction s2 rec "transfer_in" amt "from"))
          split
          · exact good_trans g3
              (good_updateUser (f := fun u => { u with daily_sent := u.daily_sent + amt })
                (fun _ => rfl) (fun _ => rfl) s3 sender)
          · exact g3

lemma good_quiz (s : State) (uid : Nat) (qobj : Option (Nat × Nat × ℚ))
    (sel today k : Nat) : Good s (quiz_answer_cb s uid qobj sel today k) := by
  cases qobj with
  | none =>
    show Good s s
    exact good_refl s
  | some t =>
    obtain ⟨qid, ansIdx, reward⟩ := t
    simp only [quiz_answer_cb]
    set s1 : State := if 1 ≤ k then
        { s with quiz_history := s.quiz_history ++ [⟨uid, qid, sel == ansIdx, today⟩] }
      else s with hs1
    have g1 : Good s s1 := good_if (good_of_fields rfl rfl)
    split
    · exact good_trans g1 (good_add_transaction s1 uid "quiz" reward "quiz")
    · exact g1

lemma good_spin (s : State) (uid today r k : Nat) :
    Good s (spin_start s uid today r k) := by
  simp only [spin_start]
  split
  · exact good_ensure s uid none
  · set s0 : State := ensure_user s uid none with hs0
    set s1 : State := if 1 ≤ k then add_transaction s0 uid "spin" (spin_once r) "daily_spin"
      else s0 with hs1
    have g1 : Good s s1 :=
      good_trans (good_ensure s uid none)
        (good_if (good_add_transaction s0 uid "spin" (spin_once r) "daily_spin"))
    split
    · exact good_trans g1 (good_of_fields rfl rfl)
    · exact g1

lemma good_apply_mission (uid : Nat) (s : State) (m : Mission) :
    Good s (apply_mission uid s m) := by
  simp only [apply_mission]
  split
  · exact good_refl s
  · split
    · exact good_trans (good_set_user_missions _ _)
        (good_add_transaction _ uid "mission_reward" m.reward _)
    · exact good_refl s

lemma good_missions (s : State) (uid : Nat) :
    Good s (check_and_apply_missions_for_user s uid) :=
  good_foldl (apply_mission uid) (fun s m => good_apply_mission uid s m) s.missions s

lemma good_admin_add (s : State) (uid : Nat) (amt : ℚ) :
    Good s (admin_add_balance_cmd s uid amt) :=
  good_trans (good_ensure s uid none)
    (good_add_transaction _ uid "admin_adjust" amt "Admin adjustment")

lemma good_audit (s : State) : Good s (daily_audit_job s) := by
  simp only [daily_audit_job]
  have h1 : Good s { s with users := s.users.map (fun u => { u with daily_sent := 0 }) } :=
    ⟨balInv_users_map (g := fun u => { u with daily_sent := 0 })
      (fun _ => rfl) (fun _ => rfl) s, ext_of_eq rfl⟩
  exact good_trans h1 (good_foldl _ (fun s uid => good_missions s uid) _ _)

lemma good_step (s : State) (op : Op) : Good s (step s op) := by
  cases op with
  | start uid ref => exact good_start_handler s uid ref
  | ensure uid => exact good_ensure s uid none
  | bonus uid today base ok => exact good_daily_bonus s uid today base ok
  | transfer sender scratch cancel k => exact good_send_confirm s sender scratch cancel k
  | quiz uid qobj sel today k => exact good_quiz s uid qobj sel today k
  | spin uid today r k => exact good_spin s uid today r k
  | missionsCheck uid => exact good_missions s uid
  | adminAdd uid amt => exact good_admin_add s uid amt
  | audit => exact good_audit s

lemma balInv_initState : BalInv initState := by
  constructor
  · intro uid
    rfl
  · simp [initState]

lemma good_runOps (l : List Op) (s : State) : Good s (l.foldl step s) :=
  good_foldl step good_step l s

/-- C1: at every state reachable from startup, the cached balance returned
by `get_balance` equals the sum of the amounts of the account's recorded
transactions, for every account; every operation preserves this equality,
and the transaction log is append-only — a later reachable state's log
extends the earlier one's, so no row is mutated or deleted. -/
theorem ledger_balance_invariant :
    (∀ ops : List Op, BalInv (runOps ops)) ∧
    (∀ ops extra : List Op,
      ∃ rest, (runOps (ops ++ extra)).txs = (runOps ops).txs ++ rest) := by
  constructor
  · intro ops
    exact (good_runOps ops initState).1 balInv_initState
  · intro ops extra
    have h := (good_runOps extra (runOps ops)).2
    unfold runOps
    rw [List.foldl_append]
    exact h

/-- C4 counterexample: the claim says a 1-indexed draw of exactly 10 makes
the sampler return 0.2; on the code's table the first bucket (reward 0.0,
weight 10) covers draws 1..10, so draw 10 returns 0.0 ≠ 0.2. -/
theorem spin_draw_ten_not_point_two :
    spin_once 10 = 0 ∧ spin_once 10 ≠ 2/10 := by
  have h : spin_once 10 = 0 := rfl
  refine ⟨h, ?_⟩
  rw [h]
  norm_num

/-- C4 (amended): the sampler walks the table accumulating weights and
returns the first reward whose cumulative weight reaches the draw; on the
fixed table a draw of 10 falls in the 0.0 bucket (draws 1..10), and the
reward 0.2 corresponds to draws 11..35. -/
theorem spin_bucket_boundaries :
    spin_once 10 = 0 ∧ ∀ r : Nat, 11 ≤ r → r ≤ 35 → spin_once r = 2/10 := by
  refine ⟨rfl, ?_⟩
  intro r h1 h2
  interval_cases r <;> rfl

/-- Witness for `spin_bucket_boundaries` at the draw 11. -/
theorem spin_bucket_boundaries_witness : spin_once 10 = 0 ∧ spin_once 11 = 2/10 :=
  ⟨spin_bucket_boundaries.1, spin_bucket_boundaries.2 11 (by decide) (by decide)⟩

/-- C10: processing `/start` with a self-referral payload (`ref<own id>`)
creates no referral link, appends no transaction, and changes no balance. -/
theorem no_self_referral (s : State) (uid : Nat) :
    (start_handler s uid (some uid)).referrals = s.referrals ∧
    (start_handler s uid (some uid)).txs = s.txs ∧
    ∀ v, get_balance (start_handler s uid (some uid)) v = get_balance s v := by
  have h : start_handler s uid (some uid) = ensure_user s uid (some uid) := by
    simp only [start_handler]
    rw [if_neg]
    intro hc
    exact hc.2 rfl
  rw [h]
  exact ⟨ensure_user_referrals s uid _, ensure_user_txs s uid _,
    fun v => get_balance_ensure s uid _ v⟩

/-- C9: for an account that already appears as the referred party of a
referrals row, any further `/start` — with any payload — adds no referrals
row, appends no transaction, and changes no balance. -/
theorem referral_link_unique (s : State) (uid : Nat) (ref : Option Nat)
    (r : Referral) (hr : r ∈ s.referrals) (href : r.referred = uid) :
    (start_handler s uid ref).referrals = s.referrals ∧
    (start_handler s uid ref).txs = s.txs ∧
    ∀ v, get_balance (start_handler s uid ref) v = get_balance s v := by
  have base : ∀ rb : Option Nat,
      (ensure_user s uid rb).referrals = s.referrals ∧
      (ensure_user s uid rb).txs = s.txs ∧
      ∀ v, get_balance (ensure_user s uid rb) v = get_balance s v :=
    fun rb => ⟨ensure_user_referrals s uid rb, ensure_user_txs s uid rb,
      fun v => get_balance_ensure s uid rb v⟩
  cases ref with
  | none => exact base none
  | some rid =>
    by_cases hc : rid ≠ 0 ∧ rid ≠ uid
    · have hfound :
          ((ensure_user s uid (some rid)).referrals.find?
            (fun rr => rr.referred == uid)).isSome = true := by
        rw [ensure_user_referrals]
        rw [List.find?_isSome]
        exact ⟨r, hr, by simp [href]⟩
      have h : start_handler s uid (some rid) = ensure_user s uid (some rid) := by
        simp only [start_handler]
        rw [if_pos hc, if_pos hfound]
      rw [h]
      exact base (some rid)
    · have h : start_handler s uid (some rid) = ensure_user s uid (some rid) := by
        simp only [start_handler]
        rw [if_neg hc]
      rw [h]
      exact base (some rid)

/-- Witness for `referral_link_unique`: account 7 was referred by 3; a
second `/start` with payload `ref5` changes nothing. -/
theorem referral_link_unique_witness :
    (start_handler (start_handler initState 7 (some 3)) 7 (some 5)).referrals
      = (start_handler initState 7 (some 3)).referrals ∧
    (start_handler (start_handler initState 7 (some 3)) 7 (some 5)).txs
      = (start_handler initState 7 (some 3)).txs ∧
    get_balance (start_handler (start_handler initState 7 (some 3)) 7 (some 5)) 3
      = get_balance (start_handler initState 7 (some 3)) 3 := by
  have h := referral_link_unique (start_handler initState 7 (some 3)) 7 (some 5)
    { referrer := 3, referred := 7 } (by decide) rfl
  exact ⟨h.1, h.2.1, h.2.2 3⟩

/-! ### Rounding lemmas -/

lemma ratFloor_eq_intFloor (q : ℚ) : q.floor = ⌊q⌋ := rfl

lemma floor_add_half (n : ℤ) : ((n : ℚ) + 1/2).floor = n := by
  rw [ratFloor_eq_intFloor, Int.floor_int_add]
  have h2 : ⌊(1/2 : ℚ)⌋ = 0 := by
    apply Int.floor_eq_zero_iff.mpr
    rw [Set.mem_Ico]
    norm_num
  rw [h2, add_zero]

lemma safe_round_coe_div (n : ℤ) : safe_round ((n : ℚ) / 100) = (n : ℚ) / 100 := by
  unfold safe_round
  have h : (n : ℚ) / 100 * 100 + 1/2 = (n : ℚ) + 1/2 := by
    field_simp
  rw [h, floor_add_half]

lemma round2_eq_safe_round : round2 = safe_round := rfl

lemma exists_int_of_safe_round_fixed {q : ℚ} (h : safe_round q = q) :
    ∃ n : ℤ, q = (n : ℚ) / 100 := by
  refine ⟨(q * 100 + 1/2).floor, ?_⟩
  conv_lhs => rw [← h]
  rfl

lemma safe_round_idem (q : ℚ) : safe_round (safe_round q) = safe_round q :=
  safe_round_coe_div _

lemma round2_nat_mul_fifth (st : Nat) :
    round2 ((st : ℚ) * (2/10)) = (st : ℚ) * (2/10) := by
  rw [round2_eq_safe_round]
  have h : (st : ℚ) * (2/10) = ((20 * st : ℤ) : ℚ) / 100 := by
    push_cast
    ring
  rw [h, safe_round_coe_div]

lemma safe_round_fixed_add {a b : ℚ} (ha : safe_round a = a) (hb : safe_round b = b) :
    safe_round (a + b) = a + b := by
  obtain ⟨n, hn⟩ := exists_int_of_safe_round_fixed ha
  obtain ⟨m, hm⟩ := exists_int_of_safe_round_fixed hb
  have h : a + b = ((n + m : ℤ) : ℚ) / 100 := by
    rw [hn, hm]
    push_cast
    ring
  rw [h, safe_round_coe_div]

lemma clamp_eq_min (x c : ℚ) : (if x > c then c else x) = min x c := by
  rcases le_or_lt x c with h | h
  · rw [if_neg (not_lt.2 h), min_eq_left h]
  · rw [if_pos h, min_eq_right h.le]

/-! ### Daily-bonus helper lemmas -/

lemma ensure_user_found {s : State} {uid : Nat} {u : UserRow}
    (hu : findUser s uid = some u) (r : Option Nat) : ensure_user s uid r = s := by
  unfold ensure_user
  rw [hu]
  rfl

lemma findUser_ensure_self (s : State) (uid : Nat) (r : Option Nat) :
    findUser (ensure_user s uid r) uid
      = some ((findUser s uid).getD (defaultUser uid r)) := by
  rw [findUser_ensure]
  simp

lemma findUser_updateUser_self {s : State} {uid : Nat} {u : UserRow}
    (hu : findUser s uid = some u) {f : UserRow → UserRow}
    (hf : ∀ v, (f v).id = v.id) :
    findUser (updateUser s uid f) uid = some (f u) := by
  rw [findUser_updateUser hf, hu]
  have hid : u.id = uid := findUser_id_eq hu
  simp [hid]

lemma findUser_add_transaction_self {s : State} {uid : Nat} {u : UserRow}
    (hu : findUser s uid = some u) (ty : String) (a : ℚ) (rsn : String) :
    findUser (add_transaction s uid ty a rsn) uid
      = some { u with balance := u.balance + a } := by
  have h1 : findUser (ensure_user s uid none) uid = some u := by
    rw [findUser_ensure_self, hu]
    rfl
  have h2 : findUser (add_transaction s uid ty a rsn) uid
      = findUser (updateUser (ensure_user s uid none) uid
          (fun v => { v with balance := v.balance + a })) uid := rfl
  rw [h2, findUser_updateUser_self h1
    (f := fun v => { v with balance := v.balance + a }) (fun _ => rfl)]

lemma update_streak_eq {s : State} {uid : Nat} {u0 : UserRow}
    (h0 : findUser s uid = some u0) (today : Nat) :
    update_last_bonus_and_streak s uid today
      = (updateUser s uid (fun u =>
              { u with last_bonus := some today,
                       streak := if u0.last_bonus = some (today - 1)
                                 then u0.streak + 1 else 1 }),
         if u0.last_bonus = some (today - 1) then u0.streak + 1 else 1) := by
  unfold update_last_bonus_and_streak
  simp only [h0]

lemma can_receive_eq_false {s : State} {uid today : Nat} {u : UserRow}
    (hu : findUser s uid = some u) (hl : u.last_bonus = some today) :
    can_receive_bonus_today s uid today = false := by
  unfold can_receive_bonus_today
  rw [hu]
  show (match u.last_bonus with
        | none => true
        | some last => last != today) = false
  rw [hl]
  simp

lemma can_receive_eq_true {s : State} {uid today : Nat} {u : UserRow}
    (hu : findUser s uid = some u) (hl : u.last_bonus ≠ some today) :
    can_receive_bonus_today s uid today = true := by
  unfold can_receive_bonus_today
  rw [hu]
  show (match u.last_bonus with
        | none => true
        | some last => last != today) = true
  cases hlb : u.last_bonus with
  | none => rfl
  | some d =>
    have hd : d ≠ today := fun hh => hl (by rw [hlb, hh])
    simp [hd]

lemma daily_bonus_rejected {s : State} {uid today : Nat} {u : UserRow}
    (hu : findUser s uid = some u) (hl : u.last_bonus = some today)
    (base : ℚ) (ok : Bool) : daily_bonus_cmd s uid today base ok = s := by
  unfold daily_bonus_cmd
  rw [ensure_user_found hu none]
  simp only [can_receive_eq_false hu hl]
  simp

lemma daily_bonus_success {s : State} {uid today : Nat} {u : UserRow}
    (hu : findUser s uid = some u) (hl : u.last_bonus ≠ some today)
    (base : ℚ) (ok : Bool) :
    daily_bonus_cmd s uid today base ok =
      (if ok then
        add_transaction (updateUser s uid
          (fun v => { v with last_bonus := some today, streak := bonus_streak u today }))
          uid "bonus" (bonus_total u today base) "daily_bonus"
       else updateUser s uid
          (fun v => { v with last_bonus := some today, streak := bonus_streak u today })) := by
  unfold daily_bonus_cmd bonus_total bonus_streak
  rw [ensure_user_found hu none]
  simp only [can_receive_eq_true hu hl, if_true, update_streak_eq hu today]

lemma daily_bonus_success_true {s : State} {uid today : Nat} {u : UserRow}
    (hu : findUser s uid = some u) (hl : u.last_bonus ≠ some today) (base : ℚ) :
    daily_bonus_cmd s uid today base true =
      add_transaction (updateUser s uid
        (fun v => { v with last_bonus := some today, streak := bonus_streak u today }))
        uid "bonus" (bonus_total u today base) "daily_bonus" := by
  rw [daily_bonus_success hu hl base true]
  rfl

lemma daily_bonus_success_false {s : State} {uid today : Nat} {u : UserRow}
    (hu : findUser s uid = some u) (hl : u.last_bonus ≠ some today) (base : ℚ) :
    daily_bonus_cmd s uid today base false =
      updateUser s uid
        (fun v => { v with last_bonus := some today, streak := bonus_streak u today }) := by
  rw [daily_bonus_success hu hl base false]
  rfl

lemma safe_round_nat_mul_fifth (st : Nat) :
    safe_round ((st : ℚ) * (2/10)) = (st : ℚ) * (2/10) :=
  round2_nat_mul_fifth st

lemma bonus_total_eq_min (u : UserRow) (today : Nat) (base : ℚ)
    (hbase : safe_round base = base) :
    bonus_total u today base
      = min (base + (bonus_streak u today : ℚ) * (2/10)) DAILY_MAX_BONUS_PER_USER := by
  unfold bonus_total
  rw [round2_nat_mul_fifth,
    safe_round_fixed_add hbase (safe_round_nat_mul_fifth (bonus_streak u today)),
    clamp_eq_min]

/-- C7: for an account whose stored last-bonus date is already `today`, a
daily-bonus claim is rejected and performs no state change at all; for an
account that has not claimed today, the claim is accepted and appends one
bonus event; consequently, immediately after a successful claim a second
same-day claim is a complete no-op. -/
theorem daily_bonus_once_per_day (s : State) (uid today : Nat) (u : UserRow)
    (hu : findUser s uid = some u) :
    (u.last_bonus = some today →
      ∀ base ok, daily_bonus_cmd s uid today base ok = s) ∧
    (u.last_bonus ≠ some today →
      ∀ base, ∃ t : Tx, t.ttype = "bonus" ∧
        (daily_bonus_cmd s uid today base true).txs = s.txs ++ [t]) ∧
    (u.last_bonus ≠ some today →
      ∀ base base2 ok2,
        daily_bonus_cmd (daily_bonus_cmd s uid today base true) uid today base2 ok2
          = daily_bonus_cmd s uid today base true) := by
  refine ⟨fun hl base ok => daily_bonus_rejected hu hl base ok,
    fun hl base => ?_, fun hl base base2 ok2 => ?_⟩
  · rw [daily_bonus_success_true hu hl base]
    refine ⟨{ user_id := uid, ttype := "bonus", amount := bonus_total u today base,
              reason := "daily_bonus" }, rfl, ?_⟩
    rw [add_transaction_txs, updateUser_txs]
  · rw [daily_bonus_success_true hu hl base]
    have h1 : findUser (updateUser s uid (fun v =>
        { v with last_bonus := some today, streak := bonus_streak u today })) uid
        = some { u with last_bonus := some today, streak := bonus_streak u today } :=
      findUser_updateUser_self hu
        (f := fun v => { v with last_bonus := some today, streak := bonus_streak u today })
        (fun _ => rfl)
    have h2 := findUser_add_transaction_self h1 "bonus" (bonus_total u today base)
      "daily_bonus"
    exact daily_bonus_rejected h2 rfl base2 ok2

/-- Witness for `daily_bonus_once_per_day`: account 1, day 5. -/
theorem daily_bonus_once_per_day_witness :
    daily_bonus_cmd (daily_bonus_cmd (ensure_user initState 1 none) 1 5 1 true)
        1 5 1 true
      = daily_bonus_cmd (ensure_user initState 1 none) 1 5 1 true := by
  have h := daily_bonus_once_per_day (ensure_user initState 1 none) 1 5
    (defaultUser 1 none) rfl
  exact h.2.2 (by decide) 1 1 true

/-- C5: on a successful daily-bonus claim, the stored streak becomes the
old streak plus one when the stored last-bonus date is exactly yesterday
and 1 otherwise, the stored date becomes today, and the appended bonus
event's amount is the base plus streak times 0.2, clamped above at the
ceiling 20. -/
theorem daily_bonus_amount_and_streak (s : State) (uid today : Nat) (base : ℚ)
    (u : UserRow) (hu : findUser s uid = some u)
    (helig : u.last_bonus ≠ some today) (hbase : safe_round base = base) :
    ((findUser (daily_bonus_cmd s uid today base true) uid).map
        (fun v => (v.last_bonus, v.streak)))
      = some (some today, if u.last_bonus = some (today - 1) then u.streak + 1 else 1) ∧
    (daily_bonus_cmd s uid today base true).txs = s.txs ++
      [{ user_id := uid, ttype := "bonus",
         amount := min (base +
             ((if u.last_bonus = some (today - 1) then u.streak + 1 else 1 : Nat) : ℚ)
               * (2/10))
           DAILY_MAX_BONUS_PER_USER,
         reason := "daily_bonus" }] := by
  rw [daily_bonus_success_true hu helig base]
  have h1 : findUser (updateUser s uid (fun v =>
      { v with last_bonus := some today, streak := bonus_streak u today })) uid
      = some { u with last_bonus := some today, streak := bonus_streak u today } :=
    findUser_updateUser_self hu
      (f := fun v => { v with last_bonus := some today, streak := bonus_streak u today })
      (fun _ => rfl)
  constructor
  · rw [findUser_add_transaction_self h1 "bonus" (bonus_total u today base)
      "daily_bonus"]
    simp [bonus_streak]
  · rw [add_transaction_txs, updateUser_txs]
    rw [bonus_total_eq_min u today base hbase]
    simp [bonus_streak]

/-- Witness for `daily_bonus_amount_and_streak`: account 1, day 5, base
1.5; the fresh account gets streak 1 and amount 1.5 + 0.2 = 1.7. -/
theorem daily_bonus_amount_and_streak_witness :
    ((findUser (daily_bonus_cmd (ensure_user initState 1 none) 1 5 (3/2) true) 1).map
        (fun v => (v.last_bonus, v.streak)))
      = some (some 5, 1) ∧
    (daily_bonus_cmd (ensure_user initState 1 none) 1 5 (3/2) true).txs =
      [{ user_id := 1, ttype := "bonus", amount := 17/10, reason := "daily_bonus" }] := by
  have h := daily_bonus_amount_and_streak (ensure_user initState 1 none) 1 5 (3/2)
    (defaultUser 1 none) rfl (by decide) (by norm_num [safe_round, ratFloor_eq_intFloor])
  refine ⟨?_, ?_⟩
  · rw [h.1]
    simp [defaultUser]
  · rw [h.2]
    norm_num [defaultUser, DAILY_MAX_BONUS_PER_USER, ensure_user, initState, findUser]

/-- C6: code-bug exhibit for the claim that the streak/date update and the
bonus ledger append are one atomic unit.  `update_last_bonus_and_streak`
commits on its own before `add_transaction` runs, so on a claim whose
ledger append fails, the new last-bonus date and streak persist while no
bonus event exists and the balance is unchanged. -/
theorem streak_persists_on_failed_append :
    ((findUser (daily_bonus_cmd initState 1 5 (3/2) false) 1).map
        (fun v => (v.last_bonus, v.streak)))
      = some (some 5, 1) ∧
    (daily_bonus_cmd initState 1 5 (3/2) false).txs = [] ∧
    get_balance (daily_bonus_cmd initState 1 5 (3/2) false) 1 = 0 := by
  refine ⟨rfl, rfl, ?_⟩
  show ((0 : ℚ) = 0)
  rfl

/-! ### Mission-engine lemmas -/

lemma add_transaction_referrals (s : State) (uid : Nat) (ty : String) (a : ℚ)
    (rsn : String) : (add_transaction s uid ty a rsn).referrals = s.referrals := by
  have h : (add_transaction s uid ty a rsn).referrals
      = (ensure_user s uid none).referrals := rfl
  rw [h, ensure_user_referrals]

lemma add_transaction_spins (s : State) (uid : Nat) (ty : String) (a : ℚ)
    (rsn : String) : (add_transaction s uid ty a rsn).spins = s.spins := by
  have h : (add_transaction s uid ty a rsn).spins = (ensure_user s uid none).spins := rfl
  rw [h, ensure_user_spins]

lemma add_transaction_missions (s : State) (uid : Nat) (ty : String) (a : ℚ)
    (rsn : String) : (add_transaction s uid ty a rsn).missions = s.missions := by
  have h : (add_transaction s uid ty a rsn).missions
      = (ensure_user s uid none).missions := rfl
  rw [h, ensure_user_missions]

lemma add_transaction_user_missions (s : State) (uid : Nat) (ty : String) (a : ℚ)
    (rsn : String) : (add_transaction s uid ty a rsn).user_missions = s.user_missions := by
  have h : (add_transaction s uid ty a rsn).user_missions
      = (ensure_user s uid none).user_missions := rfl
  rw [h, ensure_user_user_missions]

lemma apply_mission_referrals (uid : Nat) (s : State) (m : Mission) :
    (apply_mission uid s m).referrals = s.referrals := by
  unfold apply_mission
  split
  · rfl
  · split
    · rw [add_transaction_referrals]
    · rfl

lemma apply_mission_spins (uid : Nat) (s : State) (m : Mission) :
    (apply_mission uid s m).spins = s.spins := by
  unfold apply_mission
  split
  · rfl
  · split
    · rw [add_transaction_spins]
    · rfl

lemma apply_mission_missions (uid : Nat) (s : State) (m : Mission) :
    (apply_mission uid s m).missions = s.missions := by
  unfold apply_mission
  split
  · rfl
  · split
    · rw [add_transaction_missions]
    · rfl

lemma mission_ok_apply (uid : Nat) (s : State) (m m2 : Mission) :
    mission_ok (apply_mission uid s m2) uid m = mission_ok s uid m := by
  unfold mission_ok
  simp only [apply_mission_referrals, apply_mission_spins]

lemma apply_mission_user_missions (uid : Nat) (s : State) (m : Mission) :
    (apply_mission uid s m).user_missions = s.user_missions ∨
    (apply_mission uid s m).user_missions
      = s.user_missions ++ [{ user_id := uid, mission_id := m.mid, completed := true }] := by
  unfold apply_mission
  split
  · left
    rfl
  · split
    · right
      rw [add_transaction_user_missions]
    · left
      rfl

lemma mission_completed_append {s s' : State} {l : List UserMission}
    (h : s'.user_missions = s.user_missions ++ l) (uid mid : Nat)
    (hc : mission_completed s uid mid = true) : mission_completed s' uid mid = true := by
  unfold mission_completed at hc ⊢
  rw [h, List.find?_append]
  cases hfind : s.user_missions.find?
      (fun um => um.user_id == uid && um.mission_id == mid) with
  | none =>
    rw [hfind] at hc
    simp at hc
  | some um =>
    rw [hfind] at hc
    simp only [Option.or_some]
    exact hc

lemma mission_completed_apply {s : State} {uid mid : Nat} (m : Mission)
    (hc : mission_completed s uid mid = true) :
    mission_completed (apply_mission uid s m) uid mid = true := by
  cases apply_mission_user_missions uid s m with
  | inl h => exact mission_completed_append (l := []) (by rw [h, List.append_nil]) uid mid hc
  | inr h => exact mission_completed_append h uid mid hc

lemma allTrue_apply {s : State} (uid : Nat) (m : Mission)
    (hall : ∀ um ∈ s.user_missions, um.completed = true) :
    ∀ um ∈ (apply_mission uid s m).user_missions, um.completed = true := by
  cases apply_mission_user_missions uid s m with
  | inl h =>
    rw [h]
    exact hall
  | inr h =>
    rw [h]
    intro um hmem
    rcases List.mem_append.mp hmem with h1 | h1
    · exact hall um h1
    · rw [List.mem_singleton.mp h1]

lemma mission_completed_false_find {s : State} {uid mid : Nat}
    (hall : ∀ um ∈ s.user_missions, um.completed = true)
    (hc : mission_completed s uid mid = false) :
    s.user_missions.find? (fun um => um.user_id == uid && um.mission_id == mid) = none := by
  unfold mission_completed at hc
  cases hfind : s.user_missions.find?
      (fun um => um.user_id == uid && um.mission_id == mid) with
  | none => rfl
  | some um =>
    rw [hfind] at hc
    have hc2 : um.completed = false := hc
    have hmem : um ∈ s.user_missions := List.mem_of_find?_eq_some hfind
    rw [hall um hmem] at hc2
    cases hc2

lemma apply_mission_settles (uid : Nat) (s : State) (m : Mission)
    (hall : ∀ um ∈ s.user_missions, um.completed = true) :
    mission_completed (apply_mission uid s m) uid m.mid = true ∨
    mission_ok (apply_mission uid s m) uid m = false := by
  by_cases h1 : mission_completed s uid m.mid = true
  · left
    exact mission_completed_apply m h1
  · have h1f : mission_completed s uid m.mid = false := by
      cases hcc : mission_completed s uid m.mid
      · rfl
      · exact absurd hcc h1
    by_cases h2 : mission_ok s uid m = true
    · left
      have hum : (apply_mission uid s m).user_missions
          = s.user_missions ++ [{ user_id := uid, mission_id := m.mid, completed := true }] := by
        unfold apply_mission
        rw [if_neg (by rw [h1f]; exact Bool.false_ne_true), if_pos h2]
        rw [add_transaction_user_missions]
      unfold mission_completed
      rw [hum, List.find?_append, mission_completed_false_find hall h1f]
      simp [List.find?]
    · right
      have h2f : mission_ok s uid m = false := by
        cases hcc : mission_ok s uid m
        · rfl
        · exact absurd hcc h2
      rw [mission_ok_apply]
      exact h2f

lemma apply_mission_eq_self (uid : Nat) (s : State) (m : Mission)
    (hsettled : mission_completed s uid m.mid = true ∨ mission_ok s uid m = false) :
    apply_mission uid s m = s := by
  unfold apply_mission
  cases hsettled with
  | inl h => rw [if_pos h]
  | inr h =>
    split
    · rfl
    · rw [if_neg (by rw [h]; exact Bool.false_ne_true)]

lemma settled_apply (uid : Nat) (s : State) (m m2 : Mission)
    (h : mission_completed s uid m.mid = true ∨ mission_ok s uid m = false) :
    mission_completed (apply_mission uid s m2) uid m.mid = true ∨
    mission_ok (apply_mission uid s m2) uid m = false := by
  cases h with
  | inl h => exact Or.inl (mission_completed_apply m2 h)
  | inr h =>
    right
    rw [mission_ok_apply]
    exact h

lemma missions_foldl_settles (uid : Nat) :
    ∀ (l : List Mission) (s : State),
      (∀ um ∈ s.user_missions, um.completed = true) →
      (∀ um ∈ (l.foldl (apply_mission uid) s).user_missions, um.completed = true) ∧
      (∀ m : Mission,
        (mission_completed s uid m.mid = true ∨ mission_ok s uid m = false) →
        (mission_completed (l.foldl (apply_mission uid) s) uid m.mid = true ∨
         mission_ok (l.foldl (apply_mission uid) s) uid m = false)) ∧
      (∀ m ∈ l,
        mission_completed (l.foldl (apply_mission uid) s) uid m.mid = true ∨
        mission_ok (l.foldl (apply_mission uid) s) uid m = false) := by
  intro l
  induction l with
  | nil =>
    intro s hall
    exact ⟨hall, fun m h => h, fun m hm => absurd hm (List.not_mem_nil m)⟩
  | cons m0 l ih =>
    intro s hall
    obtain ⟨ih1, ih2, ih3⟩ := ih (apply_mission uid s m0) (allTrue_apply uid m0 hall)
    refine ⟨ih1, ?_, ?_⟩
    · intro m h
      exact ih2 m (settled_apply uid s m m0 h)
    · intro m hm
      rcases List.mem_cons.mp hm with h | h
      · subst h
        exact ih2 m (apply_mission_settles uid s m hall)
      · exact ih3 m h

lemma missions_foldl_missions (uid : Nat) :
    ∀ (l : List Mission) (s : State),
      (l.foldl (apply_mission uid) s).missions = s.missions := by
  intro l
  induction l with
  | nil => intro s; rfl
  | cons m0 l ih =>
    intro s
    show (l.foldl (apply_mission uid) (apply_mission uid s m0)).missions = _
    rw [ih (apply_mission uid s m0), apply_mission_missions]

lemma missions_foldl_id (uid : Nat) :
    ∀ (l : List Mission) (s : State),
      (∀ m ∈ l, mission_completed s uid m.mid = true ∨ mission_ok s uid m = false) →
      l.foldl (apply_mission uid) s = s := by
  intro l
  induction l with
  | nil => intro s _; rfl
  | cons m0 l ih =>
    intro s hs
    have h0 : apply_mission uid s m0 = s :=
      apply_mission_eq_self uid s m0 (hs m0 (List.mem_cons_self m0 l))
    show l.foldl (apply_mission uid) (apply_mission uid s m0) = s
    rw [h0]
    exact ih s (fun m hm => hs m (List.mem_cons_of_mem m0 hm))

/-- C8: mission evaluation is idempotent.  For any account whose
user_missions rows all carry completed=1 (the only kind the code ever
inserts), running `check_and_apply_missions_for_user` a second time right
after a first run changes nothing: no second `mission_reward` event is
issued and balances and mission-completion state are untouched. -/
theorem missions_idempotent (s : State) (uid : Nat)
    (hall : ∀ um ∈ s.user_missions, um.completed = true) :
    check_and_apply_missions_for_user (check_and_apply_missions_for_user s uid) uid
      = check_and_apply_missions_for_user s uid := by
  unfold check_and_apply_missions_for_user
  obtain ⟨hall2, _, hsettled⟩ := missions_foldl_settles uid s.missions s hall
  rw [missions_foldl_missions uid s.missions s]
  exact missions_foldl_id uid s.missions _ hsettled

/-- Witness for `missions_idempotent`: account 3 referred account 7, so
the first evaluation pays the refer-1-friend mission; the second changes
nothing. -/
theorem missions_idempotent_witness :
    check_and_apply_missions_for_user
        (check_and_apply_missions_for_user (start_handler initState 7 (some 3)) 3) 3
      = check_and_apply_missions_for_user (start_handler initState 7 (some 3)) 3 :=
  missions_idempotent (start_handler initState 7 (some 3)) 3 (by decide)

/-- C2: code-bug exhibit for transfer atomicity.  The two ledger appends of
a confirmed transfer are separate commits (the code's own comment says
"atomic-ish"), so stopping after the `transfer_out` commit (2 of the 4
successive commit units) leaves a persisted state in which the sender is
debited and the recipient not credited — an observable intermediate state
with only one side applied, which the claim rules out.  The complete run
applies both sides exactly, and an insufficient balance at confirm time
leaves the log and both balances unchanged, as the claim states. -/
theorem transfer_partial_commit_observable :
    (get_balance (send_confirm (admin_add_balance_cmd initState 1 10) 1
        (some (2, 5)) false 2) 1 = 5 ∧
     get_balance (send_confirm (admin_add_balance_cmd initState 1 10) 1
        (some (2, 5)) false 2) 2 = 0 ∧
     ((send_confirm (admin_add_balance_cmd initState 1 10) 1
        (some (2, 5)) false 2).txs.filter
          (fun t => t.ttype == "transfer_out")).length = 1 ∧
     ((send_confirm (admin_add_balance_cmd initState 1 10) 1
        (some (2, 5)) false 2).txs.filter
          (fun t => t.ttype == "transfer_in")).length = 0) ∧
    (get_balance (send_confirm (admin_add_balance_cmd initState 1 10) 1
        (some (2, 5)) false 4) 1 = 5 ∧
     get_balance (send_confirm (admin_add_balance_cmd initState 1 10) 1
        (some (2, 5)) false 4) 2 = 5) ∧
    (get_balance (send_confirm (admin_add_balance_cmd initState 1 10) 1
        (some (2, 50)) false 4) 1 = 10 ∧
     get_balance (send_confirm (admin_add_balance_cmd initState 1 10) 1
        (some (2, 50)) false 4) 2 = 0 ∧
     (send_confirm (admin_add_balance_cmd initState 1 10) 1
        (some (2, 50)) false 4).txs = (admin_add_balance_cmd initState 1 10).txs) := by
  refine ⟨⟨?_, ?_, ?_, ?_⟩, ⟨?_, ?_⟩, ⟨?_, ?_, ?_⟩⟩ <;>
    norm_num [send_confirm, admin_add_balance_cmd, add_transaction, ensure_user,
      updateUser, findUser, get_balance, initState, defaultUser, List.filter] <;>
    rfl

/-! ### Per-operation amount lemmas (for the rounding analysis) -/

lemma safe_round_twenty : safe_round (20 : ℚ) = 20 := by
  have h : (20 : ℚ) = ((2000 : ℤ) : ℚ) / 100 := by norm_num
  rw [h, safe_round_coe_div]

lemma safe_round_clamp (x c : ℚ) (hc : safe_round c = c) :
    safe_round (if safe_round x > c then c else safe_round x)
      = (if safe_round x > c then c else safe_round x) := by
  split
  · exact hc
  · exact safe_round_idem x

lemma safe_round_neg {q : ℚ} (h : safe_round q = q) : safe_round (-q) = -q := by
  obtain ⟨n, hn⟩ := exists_int_of_safe_round_fixed h
  rw [hn]
  have h2 : -((n : ℚ)/100) = ((-n : ℤ) : ℚ)/100 := by
    push_cast
    ring
  rw [h2, safe_round_coe_div]

lemma daily_bonus_txs_cases (s : State) (uid today : Nat) (base : ℚ) (ok : Bool) :
    (daily_bonus_cmd s uid today base ok).txs = s.txs ∨
    ∃ q : ℚ, (daily_bonus_cmd s uid today base ok).txs = s.txs ++
        [{ user_id := uid, ttype := "bonus", amount := q, reason := "daily_bonus" }] ∧
      safe_round q = q := by
  have hp : (update_last_bonus_and_streak (ensure_user s uid none) uid today).1.txs
      = (ensure_user s uid none).txs := rfl
  simp only [daily_bonus_cmd]
  split
  · split
    · right
      refine ⟨if safe_round (base + round2
            (((update_last_bonus_and_streak (ensure_user s uid none) uid today).2 : ℚ)
              * (2/10))) > DAILY_MAX_BONUS_PER_USER
          then DAILY_MAX_BONUS_PER_USER
          else safe_round (base + round2
            (((update_last_bonus_and_streak (ensure_user s uid none) uid today).2 : ℚ)
              * (2/10))), ?_, ?_⟩
      · rw [add_transaction_txs, hp, ensure_user_txs]
      · exact safe_round_clamp _ _ safe_round_twenty
    · left
      rw [hp, ensure_user_txs]
  · left
    exact ensure_user_txs s uid none

lemma send_amount_proceed {s : State} {sender : Nat} {raw amt : ℚ}
    (h : send_amount s sender raw = SendAmountResult.proceed amt) :
    amt = safe_round raw := by
  simp only [send_amount] at h
  split at h
  · exact SendAmountResult.noConfusion h
  · split at h
    · exact SendAmountResult.noConfusion h
    · split at h
      · exact SendAmountResult.noConfusion h
      · injection h with h2
        exact h2.symm

lemma send_confirm_txs_mem (s : State) (sender rec : Nat) (amt : ℚ)
    (cancel : Bool) (k : Nat) :
    ∀ t ∈ (send_confirm s sender (some (rec, amt)) cancel k).txs,
      t ∈ s.txs ∨ t.amount = -amt ∨ t.amount = amt := by
  cases cancel with
  | true =>
    intro t ht
    exact Or.inl ht
  | false =>
    simp only [send_confirm]
    split
    · intro t ht
      exact Or.inl ht
    set s1 : State := if 1 ≤ k then ensure_user s rec none else s with hs1
    have h1 : s1.txs = s.txs := by
      rw [hs1]
      split
      · exact ensure_user_txs s rec none
      · rfl
    split
    · intro t ht
      rw [h1] at ht
      exact Or.inl ht
    · set s2 : State := if 2 ≤ k then add_transaction s1 sender "transfer_out" (-amt) "to"
        else s1 with hs2
      have h2 : s2.txs = s1.txs ∨
          s2.txs = s1.txs ++ [{ user_id := sender, ttype := "transfer_out",
                                amount := -amt, reason := "to" }] := by
        rw [hs2]
        split
        · exact Or.inr (add_transaction_txs s1 sender "transfer_out" (-amt) "to")
        · exact Or.inl rfl
      set s3 : State := if 3 ≤ k then add_transaction s2 rec "transfer_in" amt "from"
        else s2 with hs3
      have h3 : s3.txs = s2.txs ∨
          s3.txs = s2.txs ++ [{ user_id := rec, ttype := "transfer_in",
                                amount := amt, reason := "from" }] := by
        rw [hs3]
        split
        · exact Or.inr (add_transaction_txs s2 rec "transfer_in" amt "from")
        · exact Or.inl rfl
      have hmem3 : ∀ t ∈ s3.txs, t ∈ s.txs ∨ t.amount = -amt ∨ t.amount = amt := by
        intro t ht
        have hmem2 : ∀ t ∈ s2.txs, t ∈ s.txs ∨ t.amount = -amt ∨ t.amount = amt := by
          intro t2 ht2
          rcases h2 with e | e
          · rw [e, h1] at ht2
            exact Or.inl ht2
          · rw [e] at ht2
            rcases List.mem_append.mp ht2 with hh | hh
            · rw [h1] at hh
              exact Or.inl hh
            · rw [List.mem_singleton.mp hh]
              exact Or.inr (Or.inl rfl)
        rcases h3 with e | e
        · rw [e] at ht
          exact hmem2 t ht
        · rw [e] at ht
          rcases List.mem_append.mp ht with hh | hh
          · exact hmem2 t hh
          · rw [List.mem_singleton.mp hh]
            exact Or.inr (Or.inr rfl)
      split
      · intro t ht
        exact hmem3 t ht
      · exact hmem3

lemma spin_walk_cases (r : Nat) : ∀ (l : List (ℚ × Nat)) (upto : Nat),
    spin_walk r l upto = 0 ∨ ∃ p ∈ l, spin_walk r l upto = p.1 := by
  intro l
  induction l with
  | nil =>
    intro upto
    exact Or.inl rfl
  | cons p l ih =>
    intro upto
    obtain ⟨rv, w⟩ := p
    have hred : spin_walk r ((rv, w) :: l) upto
        = if r ≤ upto + w then rv else spin_walk r l (upto + w) := rfl
    by_cases hc : r ≤ upto + w
    · right
      refine ⟨(rv, w), List.mem_cons_self _ _, ?_⟩
      simp only [hred, if_pos hc]
    · simp only [hred, if_neg hc]
      rcases ih (upto + w) with h | ⟨q, hq, he⟩
      · exact Or.inl h
      · exact Or.inr ⟨q, List.mem_cons_of_mem _ hq, he⟩

lemma safe_round_spin (r : Nat) : safe_round (spin_once r) = spin_once r := by
  unfold spin_once
  rcases spin_walk_cases r spin_rewards_table 0 with h | ⟨p, hp, he⟩
  · rw [h]
    norm_num [safe_round, ratFloor_eq_intFloor]
  · rw [he]
    fin_cases hp <;> norm_num [safe_round, ratFloor_eq_intFloor]

lemma start_handler_txs_cases (s : State) (uid : Nat) (ref : Option Nat) :
    (start_handler s uid ref).txs = s.txs ∨
    ∃ rid, (start_handler s uid ref).txs = s.txs ++
      [{ user_id := rid, ttype := "referral", amount := 4, reason := "Referral" }] := by
  cases ref with
  | none => exact Or.inl (ensure_user_txs s uid none)
  | some rid =>
    simp only [start_handler]
    split
    · split
      · exact Or.inl (ensure_user_txs s uid (some rid))
      · right
        refine ⟨rid, ?_⟩
        rw [add_transaction_txs]
        have h : ({ ensure_user s uid (some rid) with
            referrals := (ensure_user s uid (some rid)).referrals ++
              [{ referrer := rid, referred := uid }] } : State).txs
            = (ensure_user s uid (some rid)).txs := rfl
        rw [h, ensure_user_txs]
    · exact Or.inl (ensure_user_txs s uid (some rid))

lemma quiz_txs_cases (s : State) (uid qid ansIdx : Nat) (reward : ℚ)
    (sel today k : Nat) :
    (quiz_answer_cb s uid (some (qid, ansIdx, reward)) sel today k).txs = s.txs ∨
    (quiz_answer_cb s uid (some (qid, ansIdx, reward)) sel today k).txs = s.txs ++
      [{ user_id := uid, ttype := "quiz", amount := reward, reason := "quiz" }] := by
  simp only [quiz_answer_cb]
  set s1 : State := if 1 ≤ k then
      { s with quiz_history := s.quiz_history ++ [⟨uid, qid, sel == ansIdx, today⟩] }
    else s with hs1
  have h1 : s1.txs = s.txs := by
    rw [hs1]
    split
    · rfl
    · rfl
  split
  · right
    rw [add_transaction_txs, h1]
  · exact Or.inl h1

lemma apply_mission_txs_cases (uid : Nat) (s : State) (m : Mission) :
    (apply_mission uid s m).txs = s.txs ∨
    (apply_mission uid s m).txs = s.txs ++
      [{ user_id := uid, ttype := "mission_reward", amount := m.reward,
         reason := "mission " ++ toString m.mid }] := by
  unfold apply_mission
  split
  · exact Or.inl rfl
  · split
    · right
      rw [add_transaction_txs]
    · exact Or.inl rfl

lemma missions_txs_sub (uid : Nat) (M : List Mission) :
    ∀ (l : List Mission) (s : State), (∀ m ∈ l, m ∈ M) →
      ∀ t ∈ (l.foldl (apply_mission uid) s).txs,
        t ∈ s.txs ∨ ∃ m ∈ M, t.amount = m.reward := by
  intro l
  induction l with
  | nil =>
    intro s _ t ht
    exact Or.inl ht
  | cons m0 l ih =>
    intro s hsub t ht
    have ih2 := ih (apply_mission uid s m0)
      (fun m hm => hsub m (List.mem_cons_of_mem m0 hm)) t ht
    rcases ih2 with hin | hr
    · rcases apply_mission_txs_cases uid s m0 with e | e
      · rw [e] at hin
        exact Or.inl hin
      · rw [e] at hin
        rcases List.mem_append.mp hin with hh | hh
        · exact Or.inl hh
        · right
          exact ⟨m0, hsub m0 (List.mem_cons_self m0 l),
            by rw [List.mem_singleton.mp hh]⟩
    · exact Or.inr hr

lemma admin_add_txs (s : State) (uid : Nat) (amt : ℚ) :
    (admin_add_balance_cmd s uid amt).txs = s.txs ++
      [{ user_id := uid, ttype := "admin_adjust", amount := amt,
         reason := "Admin adjustment" }] := by
  unfold admin_add_balance_cmd
  rw [add_transaction_txs, ensure_user_txs]

/-- C3 counterexample: the admin adjustment `/addbal 1 0.123` persists its
parsed amount with no rounding; the stored amount 0.123 differs from its
own two-decimal round-half-up rounding 0.12, refuting the claim that every
operation rounds amounts before persisting them. -/
theorem admin_adjust_unrounded :
    (admin_add_balance_cmd initState 1 (123/1000)).txs
      = [{ user_id := 1, ttype := "admin_adjust", amount := 123/1000,
           reason := "Admin adjustment" }] ∧
    safe_round (123/1000 : ℚ) ≠ (123/1000 : ℚ) := by
  constructor
  · rw [admin_add_txs]
    rfl
  · norm_num [safe_round, ratFloor_eq_intFloor]

/-- C3 (amended): the amounts reaching the ledger from the daily bonus,
the transfer flow, the spin and the referral are exact two-decimal values
(fixed points of `safe_round`): the bonus total is `safe_round`-ed and
clamped, the transfer amount is the `safe_round` of the entered value and
is stored negated on the sender and as-is on the recipient, and spin and
referral amounts are two-decimal constants.  Quiz rewards, mission rewards
and admin adjustments, however, are persisted exactly as supplied, with no
rounding applied. -/
theorem rounding_per_operation :
    (∀ (s : State) (uid today : Nat) (base : ℚ) (ok : Bool),
        ∀ t ∈ (daily_bonus_cmd s uid today base ok).txs,
          t ∈ s.txs ∨ safe_round t.amount = t.amount) ∧
    (∀ (s : State) (sender : Nat) (raw amt : ℚ),
        send_amount s sender raw = SendAmountResult.proceed amt →
        ∀ (s2 : State) (rec : Nat) (cancel : Bool) (k : Nat),
          ∀ t ∈ (send_confirm s2 sender (some (rec, amt)) cancel k).txs,
            t ∈ s2.txs ∨ safe_round t.amount = t.amount) ∧
    (∀ r : Nat, safe_round (spin_once r) = spin_once r) ∧
    (∀ (s : State) (uid : Nat) (ref : Option Nat),
        ∀ t ∈ (start_handler s uid ref).txs,
          t ∈ s.txs ∨ safe_round t.amount = t.amount) ∧
    (∀ (s : State) (uid : Nat) (amt : ℚ),
        (admin_add_balance_cmd s uid amt).txs = s.txs ++
          [{ user_id := uid, ttype := "admin_adjust", amount := amt,
             reason := "Admin adjustment" }]) ∧
    (∀ (s : State) (uid qid ansIdx : Nat) (reward : ℚ) (sel today k : Nat),
        ∀ t ∈ (quiz_answer_cb s uid (some (qid, ansIdx, reward)) sel today k).txs,
          t ∈ s.txs ∨ t.amount = reward) ∧
    (∀ (s : State) (uid : Nat),
        ∀ t ∈ (check_and_apply_missions_for_user s uid).txs,
          t ∈ s.txs ∨ ∃ m ∈ s.missions, t.amount = m.reward) := by
  refine ⟨?_, ?_, safe_round_spin, ?_, admin_add_txs, ?_, ?_⟩
  · intro s uid today base ok t ht
    rcases daily_bonus_txs_cases s uid today base ok with e | ⟨q, e, hq⟩
    · rw [e] at ht
      exact Or.inl ht
    · rw [e] at ht
      rcases List.mem_append.mp ht with h | h
      · exact Or.inl h
      · right
        rw [List.mem_singleton.mp h]
        exact hq
  · intro s sender raw amt hsa s2 rec cancel k t ht
    have hamt : amt = safe_round raw := send_amount_proceed hsa
    have hfix : safe_round amt = amt := by
      rw [hamt]
      exact safe_round_idem raw
    rcases send_confirm_txs_mem s2 sender rec amt cancel k t ht with h | h | h
    · exact Or.inl h
    · right
      rw [h]
      exact safe_round_neg hfix
    · right
      rw [h]
      exact hfix
  · intro s uid ref t ht
    rcases start_handler_txs_cases s uid ref with e | ⟨rid, e⟩
    · rw [e] at ht
      exact Or.inl ht
    · rw [e] at ht
      rcases List.mem_append.mp ht with h | h
      · exact Or.inl h
      · right
        rw [List.mem_singleton.mp h]
        show safe_round (4 : ℚ) = 4
        norm_num [safe_round, ratFloor_eq_intFloor]
  · intro s uid qid ansIdx reward sel today k t ht
    rcases quiz_txs_cases s uid qid ansIdx reward sel today k with e | e
    · rw [e] at ht
      exact Or.inl ht
    · rw [e] at ht
      rcases List.mem_append.mp ht with h | h
      · exact Or.inl h
      · right
        rw [List.mem_singleton.mp h]
  · intro s uid t ht
    exact missions_txs_sub uid s.missions s.missions s (fun m hm => hm) t ht

/-- Witness for `rounding_per_operation`: the transfer conjunct applied to
the concrete confirmed transfer of 1.5 from account 1 (balance 10) to
account 2, at its `transfer_out` row. -/
theorem rounding_per_operation_witness :
    ({ user_id := 1, ttype := "transfer_out", amount := -(3/2 : ℚ), reason := "to" } : Tx)
        ∈ (admin_add_balance_cmd initState 1 10).txs ∨
      safe_round (-(3/2) : ℚ) = -(3/2) := by
  have h32 : safe_round (3/2 : ℚ) = 3/2 := by
    norm_num [safe_round, ratFloor_eq_intFloor]
  have hsa : send_amount (admin_add_balance_cmd initState 1 10) 1 (3/2)
      = SendAmountResult.proceed (3/2) := by
    simp only [send_amount, h32]
    norm_num [admin_add_balance_cmd, add_transaction, ensure_user, updateUser,
      findUser, get_balance, initState, defaultUser, MAX_SEND_PER_DAY]
  have he : (send_confirm (admin_add_balance_cmd initState 1 10) 1
        (some (2, 3/2)) false 4).txs
      = [{ user_id := 1, ttype := "admin_adjust", amount := 10,
           reason := "Admin adjustment" },
         { user_id := 1, ttype := "transfer_out", amount := -(3/2),
           reason := "to" },
         { user_id := 2, ttype := "transfer_in", amount := 3/2,
           reason := "from" }] := by
    norm_num [send_confirm, admin_add_balance_cmd, add_transaction, ensure_user,
      updateUser, findUser, get_balance, initState, defaultUser]
  have hmem : ({ user_id := 1, ttype := "transfer_out",
                 amount := -(3/2 : ℚ), reason := "to" } : Tx)
      ∈ (send_confirm (admin_add_balance_cmd initState 1 10) 1
          (some (2, 3/2)) false 4).txs := by
    rw [he]
    exact List.mem_cons_of_mem _ (List.mem_cons_self _ _)
  exact rounding_per_operation.2.1 (admin_add_balance_cmd initState 1 10) 1 (3/2) (3/2)
    hsa (admin_add_balance_cmd initState 1 10) 2 false 4 _ hmem

end Botim
